import Mathlib

/-!
Verification of the streamweave harvest pipeline core.

Shallow embedding of:
- `src/backend/app/hooks/runner.py` (`run_hooks`)
- `src/backend/app/hooks/builtin/access_assignment.py` (`AccessAssignmentHook.execute`)
- `src/backend/app/services/access.py` (`accessible_file_ids`, `apply_file_access_filter`)
- `src/backend/app/services/discovery.py` (`discover_new_files`)
- `src/backend/app/services/identifiers.py` (`mint_ark`)
- `src/backend/app/flows/harvest.py` (`transfer_single_file_task`, `harvest_instrument_flow`)

Python dicts are modelled as insertion-ordered association lists with the
exact `dict.update` semantics (replace in place for an existing key, append
otherwise).  Hook execution (dynamic dispatch through `get_hook` plus the
awaited `execute`, both of which may raise inside the runner's `try`) is
modelled as an oracle returning `Option HookResult`, `none` standing for a
raised exception.
-/

namespace Streamweave

/-! ### Python dict model -/

/-- Python `k in d` on the dict model. -/
def dictHasKey (d : List (String × String)) (k : String) : Bool :=
  d.any (fun kv => kv.1 = k)

/-- One `d[k] = v` step of Python `dict.update`: replace in place when the key
exists, append otherwise. -/
def dictSet (d : List (String × String)) (k v : String) : List (String × String) :=
  if dictHasKey d k then
    d.map (fun kv => if kv.1 = k then (k, v) else kv)
  else
    d ++ [(k, v)]

/-- Python `d.update(m)`: fold `dictSet` over the bindings of `m` in order. -/
def dictUpdate (d m : List (String × String)) : List (String × String) :=
  m.foldl (fun acc kv => dictSet acc kv.1 kv.2) d

/-- Python `d.get(k)`: the value of the first binding of `k`. -/
def dictGet (d : List (String × String)) (k : String) : Option String :=
  (d.find? (fun kv => kv.1 = k)).map Prod.snd

/-- The value a Python dict literal with these bindings would hold at `k`:
the last binding wins. -/
def lastBinding (m : List (String × String)) (k : String) : Option String :=
  (m.reverse.find? (fun kv => kv.1 = k)).map Prod.snd

theorem dictGet_nil (k : String) : dictGet [] k = none := rfl

theorem dictGet_replace_self (d : List (String × String)) (k v : String) :
    dictGet (d.map (fun kv => if kv.1 = k then (k, v) else kv)) k =
      if dictHasKey d k then some v else none := by
  induction d with
  | nil => simp [dictGet, dictHasKey]
  | cons kv d ih =>
    by_cases hk : kv.1 = k
    · simp [dictGet, dictHasKey, hk, List.find?_cons_of_pos]
    · simp only [List.map_cons, if_neg hk]
      rw [show dictGet (kv :: d.map (fun kv => if kv.1 = k then (k, v) else kv)) k =
        dictGet (d.map (fun kv => if kv.1 = k then (k, v) else kv)) k by
          simp [dictGet, List.find?_cons_of_neg, hk]]
      rw [ih]
      simp only [dictHasKey, List.any_cons, show (decide (kv.1 = k)) = false by simp [hk],
        Bool.false_or]

theorem dictGet_replace_other (d : List (String × String)) (k v k' : String)
    (h : k' ≠ k) :
    dictGet (d.map (fun kv => if kv.1 = k then (k, v) else kv)) k' = dictGet d k' := by
  induction d with
  | nil => simp
  | cons kv d ih =>
    by_cases hk : kv.1 = k
    · have h1 : ¬ (k = k') := fun hh => h hh.symm
      simp only [List.map_cons, if_pos hk]
      rw [show dictGet ((k, v) :: d.map (fun kv => if kv.1 = k then (k, v) else kv)) k' =
        dictGet (d.map (fun kv => if kv.1 = k then (k, v) else kv)) k' by
          simp [dictGet, List.find?_cons_of_neg, h1]]
      rw [ih]
      simp [dictGet, List.find?_cons_of_neg, hk ▸ h1]
    · simp only [List.map_cons, if_neg hk]
      by_cases hkv : kv.1 = k'
      · simp [dictGet, List.find?_cons_of_pos, hkv]
      · simp only [show dictGet (kv :: d.map (fun kv => if kv.1 = k then (k, v) else kv)) k' =
          dictGet (d.map (fun kv => if kv.1 = k then (k, v) else kv)) k' by
            simp [dictGet, List.find?_cons_of_neg, hkv]]
        rw [ih]
        simp [dictGet, List.find?_cons_of_neg, hkv]

theorem find?_eq_none_of_not_hasKey (d : List (String × String)) (k : String)
    (h : dictHasKey d k = false) :
    d.find? (fun kv => kv.1 = k) = none := by
  apply List.find?_eq_none.2
  intro kv hkv hdec
  have : d.any (fun kv => kv.1 = k) = true :=
    List.any_eq_true.2 ⟨kv, hkv, hdec⟩
  rw [dictHasKey] at h
  simp [this] at h

theorem dictGet_dictSet (d : List (String × String)) (k v k' : String) :
    dictGet (dictSet d k v) k' = if k' = k then some v else dictGet d k' := by
  unfold dictSet
  by_cases hmem : dictHasKey d k
  · rw [if_pos hmem]
    by_cases hk' : k' = k
    · subst hk'
      rw [dictGet_replace_self, if_pos hmem, if_pos rfl]
    · rw [dictGet_replace_other d k v k' hk', if_neg hk']
  · rw [if_neg hmem]
    by_cases hk' : k' = k
    · subst hk'
      have hfind := find?_eq_none_of_not_hasKey d k' (by simpa using hmem)
      simp [dictGet, List.find?_append, hfind, List.find?_cons_of_pos]
    · have h1 : ¬ (k = k') := fun hh => hk' hh.symm
      have : (List.find? (fun kv => kv.1 = k') [(k, v)]) = none := by
        simp [List.find?_cons_of_neg, h1]
      simp [dictGet, List.find?_append, this, hk']

theorem dictGet_dictUpdate (d m : List (String × String)) (k : String) :
    dictGet (dictUpdate d m) k =
      match lastBinding m k with
      | some v => some v
      | none => dictGet d k := by
  induction m generalizing d with
  | nil => simp [dictUpdate, lastBinding]
  | cons kv m ih =>
    show dictGet (dictUpdate (dictSet d kv.1 kv.2) m) k = _
    rw [ih]
    have hcons : lastBinding (kv :: m) k =
        match lastBinding m k with
        | some v => some v
        | none => if kv.1 = k then some kv.2 else none := by
      unfold lastBinding
      rw [List.reverse_cons, List.find?_append]
      cases hfind : m.reverse.find? (fun p => decide (p.1 = k)) with
      | some p => simp [hfind]
      | none =>
        by_cases hk : kv.1 = k
        · simp [hfind, List.find?_cons_of_pos, hk]
        · simp [hfind, List.find?_cons_of_neg, hk]
    rw [hcons]
    cases hlast : lastBinding m k with
    | some v => simp
    | none =>
      by_cases hk : kv.1 = k
      · subst hk
        simp [dictGet_dictSet]
      · rw [if_neg hk, dictGet_dictSet, if_neg (fun h : k = kv.1 => hk h.symm)]

/-! ### Hook engine (`app/hooks/base.py`, `app/models/hook.py`, `app/hooks/runner.py`) -/

/-- Embeds `HookTrigger` from `app/models/hook.py`. -/
inductive HookTrigger where
  | pre_transfer
  | post_transfer
deriving DecidableEq, Repr

/-- Embeds `HookAction` from `app/hooks/base.py`. -/
inductive HookAction where
  | proceed
  | skip
  | redirect
deriving DecidableEq, Repr

/-- One entry of `HookResult.access_grants`: the dict emitted by
`AccessAssignmentHook.execute` carries either a literal `grantee_id` or a
deferred `resolve_field`/`resolve_value` pair. -/
inductive Grant where
  | literal (grantee_type : String) (grantee_id : String)
  | deferred (grantee_type : String) (resolve_field : String) (resolve_value : String)
deriving DecidableEq, Repr

/-- Embeds `HookContext` from `app/hooks/base.py`. -/
structure HookContext where
  source_path : String
  filename : String
  instrument_id : String
  instrument_name : String
  size_bytes : Nat := 0
  metadata : List (String × String) := []
  destination_path : String := ""
  transfer_success : Bool := false
  checksum : String := ""
deriving DecidableEq, Repr

/-- Embeds `HookResult` from `app/hooks/base.py`. -/
structure HookResult where
  action : HookAction := HookAction.proceed
  metadata_updates : List (String × String) := []
  access_grants : List Grant := []
  redirect_path : String := ""
  message : String := ""
deriving DecidableEq, Repr

/-- The fields of `HookConfig` (`app/models/hook.py`) that `run_hooks` reads. -/
structure HookCfg where
  name : String
  trigger : HookTrigger
  priority : Int
  enabled : Bool
deriving DecidableEq, Repr

/-- The sort key relation of `sorted(..., key=lambda h: h.priority)`. -/
def hookLe (a b : HookCfg) : Prop := a.priority ≤ b.priority

instance : DecidableRel hookLe := fun a b => Int.decLe a.priority b.priority

instance : IsTotal HookCfg hookLe := ⟨fun a b => Int.le_total a.priority b.priority⟩

instance : IsTrans HookCfg hookLe := ⟨fun _ _ _ => Int.le_trans⟩

/-- The `relevant` list computed by `run_hooks`: the enabled hooks whose trigger
matches, sorted ascending by priority with Python's stable `sorted`. -/
def relevantHooks (trigger : HookTrigger) (hook_configs : List HookCfg) : List HookCfg :=
  List.insertionSort hookLe
    (hook_configs.filter (fun h => decide (h.trigger = trigger) && h.enabled))

/-- Hook execution oracle: `get_hook(hook_config)` followed by
`await hook.execute(context)`; `none` models an exception raised by either. -/
def HookExec := HookCfg → HookContext → Option HookResult

/-- The loop body of `run_hooks`, carrying the `merged_metadata` and
`merged_access_grants` accumulators.  Returns the `HookResult` together with
the list of hooks whose execution was attempted, in order. -/
def runHooksLoop (trigger : HookTrigger) (ctx : HookContext) (exec : HookExec) :
    List HookCfg → List (String × String) → List Grant → HookResult × List HookCfg
  | [], md, gr =>
    ({ action := HookAction.proceed, metadata_updates := md, access_grants := gr }, [])
  | h :: rest, md, gr =>
    match exec h ctx with
    | none =>
      -- `except Exception: logger.exception(...); continue`
      let p := runHooksLoop trigger ctx exec rest md gr
      (p.1, h :: p.2)
    | some res =>
      match trigger with
      | HookTrigger.pre_transfer =>
        if res.action = HookAction.skip then (res, [h])
        else if res.action = HookAction.redirect then (res, [h])
        else
          let p := runHooksLoop trigger ctx exec rest
            (dictUpdate md res.metadata_updates) gr
          (p.1, h :: p.2)
      | HookTrigger.post_transfer =>
        let p := runHooksLoop trigger ctx exec rest
          (dictUpdate md res.metadata_updates) (gr ++ res.access_grants)
        (p.1, h :: p.2)

/-- Embeds `run_hooks` from `app/hooks/runner.py`.  The second component of the pair
is the execution trace (which hooks were attempted, in order). -/
def run_hooks (trigger : HookTrigger) (ctx : HookContext) (exec : HookExec)
    (hook_configs : List HookCfg) : HookResult × List HookCfg :=
  runHooksLoop trigger ctx exec (relevantHooks trigger hook_configs) [] []

/-! ### Stability of the runner's sort

Python's `sorted` is stable: ties on the priority key keep insertion order.
`List.insertionSort` has the same property; we prove it in the form "for every
priority level, sorting does not change the subsequence at that level". -/

/-- Lemma: `orderedInsert` inserts an element before every element of the same
priority and after every element of strictly smaller priority. -/
theorem orderedInsert_filter_key (p : Int) (a : HookCfg) (l : List HookCfg) :
    (List.orderedInsert hookLe a l).filter (fun h => decide (h.priority = p)) =
      if a.priority = p then
        a :: l.filter (fun h => decide (h.priority = p))
      else
        l.filter (fun h => decide (h.priority = p)) := by
  induction l with
  | nil =>
    by_cases ha : a.priority = p <;> simp [List.orderedInsert, List.filter, ha]
  | cons b t ih =>
    by_cases hle : hookLe a b
    · rw [show List.orderedInsert hookLe a (b :: t) = a :: b :: t from
        List.orderedInsert_of_le hookLe t hle]
      by_cases ha : a.priority = p <;> simp [List.filter_cons, ha]
    · rw [show List.orderedInsert hookLe a (b :: t) =
        b :: List.orderedInsert hookLe a t by simp [List.orderedInsert, hle]]
      by_cases ha : a.priority = p
      · have hb : ¬ b.priority = p := by
          intro hb
          exact hle (le_of_eq (ha.trans hb.symm))
        simp [List.filter_cons, hb, ih, ha]
      · by_cases hb : b.priority = p <;> simp [List.filter_cons, hb, ih, ha]

/-- Stability of the runner's sort: the subsequence of hooks at any fixed
priority is unchanged by sorting. -/
theorem insertionSort_filter_key (p : Int) (l : List HookCfg) :
    (List.insertionSort hookLe l).filter (fun h => decide (h.priority = p)) =
      l.filter (fun h => decide (h.priority = p)) := by
  induction l with
  | nil => rfl
  | cons a t ih =>
    rw [show List.insertionSort hookLe (a :: t) =
      List.orderedInsert hookLe a (List.insertionSort hookLe t) from rfl]
    rw [orderedInsert_filter_key]
    by_cases ha : a.priority = p <;> simp [List.filter_cons, ha, ih]

/-! ### Characterization of the runner loop -/

/-- Whether a hook short-circuits a pre-transfer run: its execution succeeds
and returns action `skip` or `redirect`. -/
def scPre (ctx : HookContext) (exec : HookExec) (h : HookCfg) : Bool :=
  match exec h ctx with
  | some r => decide (r.action = HookAction.skip) || decide (r.action = HookAction.redirect)
  | none => false

/-- The metadata accumulator: `merged_metadata.update(result.metadata_updates)`
folded over a list of hooks, skipping hooks whose execution raises. -/
def mdAccum (ctx : HookContext) (exec : HookExec) (l : List HookCfg)
    (md : List (String × String)) : List (String × String) :=
  l.foldl (fun acc h =>
    match exec h ctx with
    | some r => dictUpdate acc r.metadata_updates
    | none => acc) md

/-- The access-grant lists contributed by a list of hooks, concatenated in
order; a hook whose execution raises contributes nothing. -/
def grantsOf (ctx : HookContext) (exec : HookExec) (l : List HookCfg) : List Grant :=
  l.flatMap (fun h =>
    match exec h ctx with
    | some r => r.access_grants
    | none => [])

/-- The value the metadata accumulator ends up holding at key `k`: the last
binding of `k` from the last successfully-executed hook that binds `k`. -/
def lastHookValue (ctx : HookContext) (exec : HookExec) (l : List HookCfg)
    (k : String) : Option String :=
  l.reverse.findSome? (fun h =>
    match exec h ctx with
    | some r => lastBinding r.metadata_updates k
    | none => none)

theorem dictGet_mdAccum (ctx : HookContext) (exec : HookExec) :
    ∀ (l : List HookCfg) (md : List (String × String)) (k : String),
      dictGet (mdAccum ctx exec l md) k =
        match lastHookValue ctx exec l k with
        | some v => some v
        | none => dictGet md k := by
  intro l
  induction l with
  | nil => intro md k; simp [mdAccum, lastHookValue]
  | cons h t ih =>
    intro md k
    have hstep : mdAccum ctx exec (h :: t) md =
        mdAccum ctx exec t
          (match exec h ctx with
           | some r => dictUpdate md r.metadata_updates
           | none => md) := by
      cases hx : exec h ctx <;> simp [mdAccum, hx]
    rw [hstep, ih]
    have hlast : lastHookValue ctx exec (h :: t) k =
        match lastHookValue ctx exec t k with
        | some v => some v
        | none =>
          match exec h ctx with
          | some r => lastBinding r.metadata_updates k
          | none => none := by
      unfold lastHookValue
      rw [List.reverse_cons, List.findSome?_append]
      cases hfind : t.reverse.findSome? (fun h =>
        match exec h ctx with
        | some r => lastBinding r.metadata_updates k
        | none => none) with
      | some v => simp [hfind]
      | none =>
        cases hx : exec h ctx with
        | none => simp [hfind, List.findSome?, hx]
        | some r =>
          cases hb : lastBinding r.metadata_updates k <;>
            simp [hfind, List.findSome?, hx, hb]
    rw [hlast]
    cases hl : lastHookValue ctx exec t k with
    | some v => simp
    | none =>
      cases hx : exec h ctx with
      | none => simp
      | some r =>
        rw [dictGet_dictUpdate]

/-- Post-transfer loop: every hook in the list is attempted, nothing
short-circuits, and the accumulators absorb every successful result. -/
theorem runHooksLoop_post (ctx : HookContext) (exec : HookExec) :
    ∀ (l : List HookCfg) (md : List (String × String)) (gr : List Grant),
      runHooksLoop HookTrigger.post_transfer ctx exec l md gr =
        ({ action := HookAction.proceed,
           metadata_updates := mdAccum ctx exec l md,
           access_grants := gr ++ grantsOf ctx exec l }, l) := by
  intro l
  induction l with
  | nil => intro md gr; simp [runHooksLoop, mdAccum, grantsOf]
  | cons h t ih =>
    intro md gr
    cases hx : exec h ctx with
    | none =>
      simp [runHooksLoop, hx, ih, mdAccum, grantsOf]
    | some r =>
      simp [runHooksLoop, hx, ih, mdAccum, grantsOf, List.append_assoc]

/-- Pre-transfer loop on a list with no short-circuiting hook: all hooks are
attempted and the final result is `proceed` with the accumulated metadata. -/
theorem runHooksLoop_pre_none (ctx : HookContext) (exec : HookExec) :
    ∀ (l : List HookCfg) (md : List (String × String)) (gr : List Grant),
      (∀ h ∈ l, scPre ctx exec h = false) →
      runHooksLoop HookTrigger.pre_transfer ctx exec l md gr =
        ({ action := HookAction.proceed,
           metadata_updates := mdAccum ctx exec l md,
           access_grants := gr }, l) := by
  intro l
  induction l with
  | nil => intro md gr _; simp [runHooksLoop, mdAccum]
  | cons h t ih =>
    intro md gr hno
    have hh := hno h (List.mem_cons_self h t)
    have ht : ∀ x ∈ t, scPre ctx exec x = false :=
      fun x hx => hno x (List.mem_cons_of_mem h hx)
    cases hx : exec h ctx with
    | none =>
      simp [runHooksLoop, hx, ih md gr ht, mdAccum]
    | some r =>
      have hr : ¬ (r.action = HookAction.skip) ∧ ¬ (r.action = HookAction.redirect) := by
        rw [scPre, hx] at hh
        constructor <;> intro hcontra <;> simp [hcontra] at hh
      simp [runHooksLoop, hx, hr.1, hr.2,
        ih (dictUpdate md r.metadata_updates) gr ht, mdAccum]

/-- Pre-transfer loop when a short-circuiting hook is present: the first such
hook's result is returned as is, and nothing after it is attempted. -/
theorem runHooksLoop_pre_sc (ctx : HookContext) (exec : HookExec) :
    ∀ (l₁ : List HookCfg) (h : HookCfg) (l₂ : List HookCfg)
      (md : List (String × String)) (gr : List Grant) (r : HookResult),
      (∀ x ∈ l₁, scPre ctx exec x = false) →
      exec h ctx = some r →
      (r.action = HookAction.skip ∨ r.action = HookAction.redirect) →
      runHooksLoop HookTrigger.pre_transfer ctx exec (l₁ ++ h :: l₂) md gr =
        (r, l₁ ++ [h]) := by
  intro l₁
  induction l₁ with
  | nil =>
    intro h l₂ md gr r _ hx hact
    rcases hact with hsk | hrd
    · simp [runHooksLoop, hx, hsk]
    · simp [runHooksLoop, hx, hrd]
  | cons a t ih =>
    intro h l₂ md gr r hno hx hact
    have ha := hno a (List.mem_cons_self a t)
    have ht : ∀ x ∈ t, scPre ctx exec x = false :=
      fun x hxm => hno x (List.mem_cons_of_mem a hxm)
    cases hxa : exec a ctx with
    | none =>
      simp [runHooksLoop, hxa, ih h l₂ md gr r ht hx hact]
    | some ra =>
      have hr : ¬ (ra.action = HookAction.skip) ∧ ¬ (ra.action = HookAction.redirect) := by
        rw [scPre, hxa] at ha
        constructor <;> intro hcontra <;> simp [hcontra] at ha
      simp [runHooksLoop, hxa, hr.1, hr.2,
        ih h l₂ (dictUpdate md ra.metadata_updates) gr r ht hx hact]

/-- The hooks `run_hooks` selects for a trigger, before sorting. -/
def matchingHooks (trigger : HookTrigger) (hook_configs : List HookCfg) : List HookCfg :=
  hook_configs.filter (fun h => decide (h.trigger = trigger) && h.enabled)

theorem relevantHooks_perm (trigger : HookTrigger) (cfgs : List HookCfg) :
    (relevantHooks trigger cfgs).Perm (matchingHooks trigger cfgs) :=
  List.perm_insertionSort hookLe _

theorem relevantHooks_sorted (trigger : HookTrigger) (cfgs : List HookCfg) :
    (relevantHooks trigger cfgs).Sorted hookLe :=
  List.sorted_insertionSort hookLe _

theorem relevantHooks_stable (trigger : HookTrigger) (cfgs : List HookCfg) (p : Int) :
    (relevantHooks trigger cfgs).filter (fun h => decide (h.priority = p)) =
      (matchingHooks trigger cfgs).filter (fun h => decide (h.priority = p)) :=
  insertionSort_filter_key p _

/-- C1: a pre-transfer run evaluates the enabled hooks matching the
pre-transfer trigger in ascending priority order with ties broken by insertion
order (the evaluated sequence is a permutation of the matching hooks, is
sorted by priority, and preserves the input subsequence at every priority
level); if no hook short-circuits, every selected hook is attempted and the
result is `proceed` carrying the accumulated metadata of the successful
results; otherwise the first hook returning `skip` or `redirect` has its
result returned as is, and no later hook is executed. -/
theorem run_hooks_pre_transfer_correct (hook_configs : List HookCfg)
    (ctx : HookContext) (exec : HookExec) :
    (relevantHooks HookTrigger.pre_transfer hook_configs).Perm
        (matchingHooks HookTrigger.pre_transfer hook_configs) ∧
    (relevantHooks HookTrigger.pre_transfer hook_configs).Sorted hookLe ∧
    (∀ p : Int,
      (relevantHooks HookTrigger.pre_transfer hook_configs).filter
          (fun h => decide (h.priority = p)) =
        (matchingHooks HookTrigger.pre_transfer hook_configs).filter
          (fun h => decide (h.priority = p))) ∧
    ((relevantHooks HookTrigger.pre_transfer hook_configs).dropWhile
        (fun h => ! scPre ctx exec h) = [] →
      run_hooks HookTrigger.pre_transfer ctx exec hook_configs =
        ({ action := HookAction.proceed,
           metadata_updates :=
             mdAccum ctx exec (relevantHooks HookTrigger.pre_transfer hook_configs) [],
           access_grants := [] },
         relevantHooks HookTrigger.pre_transfer hook_configs)) ∧
    (∀ h t, (relevantHooks HookTrigger.pre_transfer hook_configs).dropWhile
        (fun h => ! scPre ctx exec h) = h :: t →
      ∃ r, exec h ctx = some r ∧
        (r.action = HookAction.skip ∨ r.action = HookAction.redirect) ∧
        run_hooks HookTrigger.pre_transfer ctx exec hook_configs =
          (r, (relevantHooks HookTrigger.pre_transfer hook_configs).takeWhile
                (fun h => ! scPre ctx exec h) ++ [h])) := by
  refine ⟨relevantHooks_perm _ _, relevantHooks_sorted _ _, relevantHooks_stable _ _, ?_, ?_⟩
  · intro hdrop
    have hsplit := List.takeWhile_append_dropWhile
      (p := fun h => ! scPre ctx exec h)
      (l := relevantHooks HookTrigger.pre_transfer hook_configs)
    rw [hdrop, List.append_nil] at hsplit
    have hall : ∀ x ∈ relevantHooks HookTrigger.pre_transfer hook_configs,
        scPre ctx exec x = false := by
      intro x hx
      rw [← hsplit] at hx
      have := List.mem_takeWhile_imp hx
      simpa using this
    unfold run_hooks
    exact runHooksLoop_pre_none ctx exec _ [] [] hall
  · intro h t hdrop
    have hsplit := List.takeWhile_append_dropWhile
      (p := fun h => ! scPre ctx exec h)
      (l := relevantHooks HookTrigger.pre_transfer hook_configs)
    rw [hdrop] at hsplit
    have hhead := List.head?_dropWhile_not
      (fun h => ! scPre ctx exec h)
      (relevantHooks HookTrigger.pre_transfer hook_configs)
    rw [hdrop] at hhead
    simp only [List.head?_cons] at hhead
    have hsc : scPre ctx exec h = true := by simpa using hhead
    have htake : ∀ x ∈ (relevantHooks HookTrigger.pre_transfer hook_configs).takeWhile
        (fun h => ! scPre ctx exec h), scPre ctx exec x = false := by
      intro x hx
      have := List.mem_takeWhile_imp hx
      simpa using this
    rcases hr : exec h ctx with _ | r
    · rw [scPre, hr] at hsc; simp at hsc
    · have hact : r.action = HookAction.skip ∨ r.action = HookAction.redirect := by
        rw [scPre, hr] at hsc
        rcases Bool.or_eq_true_iff.1 hsc with h1 | h1
        · exact Or.inl (of_decide_eq_true h1)
        · exact Or.inr (of_decide_eq_true h1)
      refine ⟨r, rfl, hact, ?_⟩
      unfold run_hooks
      conv_lhs => rw [← hsplit]
      exact runHooksLoop_pre_sc ctx exec _ h t [] [] r htake hr hact

/-- C2: a post-transfer run attempts every enabled matching hook in ascending
priority order with ties broken by insertion order, never short-circuits, and
returns `proceed` whose metadata map is the left-to-right merge of the hooks'
metadata-update maps (lookup at any key yields the last successful hook's
binding of that key) and whose access-grant list is the in-order concatenation
of the hooks' access-grant lists. -/
theorem run_hooks_post_transfer_correct (hook_configs : List HookCfg)
    (ctx : HookContext) (exec : HookExec) :
    (relevantHooks HookTrigger.post_transfer hook_configs).Perm
        (matchingHooks HookTrigger.post_transfer hook_configs) ∧
    (relevantHooks HookTrigger.post_transfer hook_configs).Sorted hookLe ∧
    (∀ p : Int,
      (relevantHooks HookTrigger.post_transfer hook_configs).filter
          (fun h => decide (h.priority = p)) =
        (matchingHooks HookTrigger.post_transfer hook_configs).filter
          (fun h => decide (h.priority = p))) ∧
    (run_hooks HookTrigger.post_transfer ctx exec hook_configs).2 =
        relevantHooks HookTrigger.post_transfer hook_configs ∧
    (run_hooks HookTrigger.post_transfer ctx exec hook_configs).1.action =
        HookAction.proceed ∧
    (run_hooks HookTrigger.post_transfer ctx exec hook_configs).1.access_grants =
        grantsOf ctx exec (relevantHooks HookTrigger.post_transfer hook_configs) ∧
    (∀ k : String,
      dictGet (run_hooks HookTrigger.post_transfer ctx exec hook_configs).1.metadata_updates k =
        lastHookValue ctx exec (relevantHooks HookTrigger.post_transfer hook_configs) k) := by
  have hloop := runHooksLoop_post ctx exec
    (relevantHooks HookTrigger.post_transfer hook_configs) [] []
  refine ⟨relevantHooks_perm _ _, relevantHooks_sorted _ _, relevantHooks_stable _ _,
    ?_, ?_, ?_, ?_⟩
  · unfold run_hooks; rw [hloop]
  · unfold run_hooks; rw [hloop]
  · unfold run_hooks; rw [hloop]; simp
  · intro k
    unfold run_hooks
    rw [hloop]
    show dictGet (mdAccum ctx exec _ []) k = _
    rw [dictGet_mdAccum]
    cases hl : lastHookValue ctx exec
      (relevantHooks HookTrigger.post_transfer hook_configs) k <;> simp [dictGet]

/-! #### Concrete pre-transfer scenario (spec §8: skip at priority 0 beats
redirect at priority 10) -/

/-- Context for the concrete scenario: file `exp/a.tmp`. -/
def wCtx : HookContext :=
  { source_path := "exp/a.tmp", filename := "a.tmp",
    instrument_id := "inst-1", instrument_name := "microscope" }

/-- Priority-0 pre-transfer hook configuration. -/
def wSkipCfg : HookCfg :=
  { name := "exclude_tmp", trigger := HookTrigger.pre_transfer,
    priority := 0, enabled := true }

/-- Priority-10 pre-transfer hook configuration. -/
def wRedirCfg : HookCfg :=
  { name := "always_redirect", trigger := HookTrigger.pre_transfer,
    priority := 10, enabled := true }

/-- Oracle: the priority-0 hook skips, every other hook redirects. -/
def wExec : HookExec := fun c _ =>
  if c.priority = 0 then
    some { action := HookAction.skip, message := "Excluded by pattern" }
  else
    some { action := HookAction.redirect, redirect_path := "/alt" }

theorem run_hooks_pre_transfer_correct_witness :
    run_hooks HookTrigger.pre_transfer wCtx wExec [wSkipCfg, wRedirCfg] =
      ({ action := HookAction.skip, message := "Excluded by pattern" }, [wSkipCfg]) := by
  obtain ⟨r, hr, _, hout⟩ :=
    (run_hooks_pre_transfer_correct [wSkipCfg, wRedirCfg] wCtx wExec).2.2.2.2
      wSkipCfg [wRedirCfg] (by decide)
  have hr2 : some (⟨HookAction.skip, [], [], "", "Excluded by pattern"⟩ : HookResult)
      = some r := by
    rw [← hr]; rfl
  rw [hout, ← Option.some.inj hr2]
  rfl

/-! ### C8: a raising hook contributes nothing -/

theorem orderedInsert_all_le (c : HookCfg) (ys : List HookCfg)
    (h : ∀ b ∈ ys, hookLe c b) :
    List.orderedInsert hookLe c ys = c :: ys := by
  cases ys with
  | nil => rfl
  | cons b t =>
    exact List.orderedInsert_of_le hookLe t (h b (List.mem_cons_self b t))

theorem orderedInsert_split (a : HookCfg) (s : List HookCfg) :
    ∃ xs ys, List.orderedInsert hookLe a s = xs ++ a :: ys ∧ xs ++ ys = s := by
  induction s with
  | nil => exact ⟨[], [], rfl, rfl⟩
  | cons b t ih =>
    by_cases hle : hookLe a b
    · exact ⟨[], b :: t, List.orderedInsert_of_le hookLe t hle, rfl⟩
    · obtain ⟨xs, ys, h1, h2⟩ := ih
      refine ⟨b :: xs, ys, ?_, by rw [List.cons_append, h2]⟩
      simp [List.orderedInsert, hle, h1]

theorem orderedInsert_middle (c : HookCfg) :
    ∀ (xs : List HookCfg) (a : HookCfg) (ys : List HookCfg),
      (xs ++ a :: ys).Sorted hookLe →
      ∃ xs' ys', List.orderedInsert hookLe c (xs ++ a :: ys) = xs' ++ a :: ys' ∧
        xs' ++ ys' = List.orderedInsert hookLe c (xs ++ ys) := by
  intro xs
  induction xs with
  | nil =>
    intro a ys hsort
    by_cases hle : hookLe c a
    · refine ⟨[c], ys, ?_, ?_⟩
      · exact List.orderedInsert_of_le hookLe ys hle
      · rw [List.nil_append]
        refine (orderedInsert_all_le c ys ?_).symm
        intro b hb
        exact Trans.trans hle (List.rel_of_sorted_cons hsort b hb)
    · refine ⟨[], List.orderedInsert hookLe c ys, ?_, rfl⟩
      simp [List.orderedInsert, hle]
  | cons d xs ih =>
    intro a ys hsort
    by_cases hle : hookLe c d
    · refine ⟨c :: d :: xs, ys, ?_, ?_⟩
      · exact List.orderedInsert_of_le hookLe _ hle
      · exact (List.orderedInsert_of_le hookLe _ hle).symm
    · obtain ⟨xs', ys', h1, h2⟩ := ih a ys (List.Sorted.of_cons hsort)
      refine ⟨d :: xs', ys', ?_, ?_⟩
      · rw [List.cons_append]
        simp only [List.orderedInsert, if_neg hle]
        rw [h1]
        rfl
      · rw [List.cons_append]
        simp only [List.orderedInsert, if_neg hle]
        rw [h2]
        rfl

theorem insertionSort_removal :
    ∀ (l₁ : List HookCfg) (a : HookCfg) (l₂ : List HookCfg),
      ∃ xs ys, List.insertionSort hookLe (l₁ ++ a :: l₂) = xs ++ a :: ys ∧
        xs ++ ys = List.insertionSort hookLe (l₁ ++ l₂) := by
  intro l₁
  induction l₁ with
  | nil =>
    intro a l₂
    obtain ⟨xs, ys, h1, h2⟩ := orderedInsert_split a (List.insertionSort hookLe l₂)
    exact ⟨xs, ys, h1, h2⟩
  | cons c l₁ ih =>
    intro a l₂
    obtain ⟨xs, ys, h1, h2⟩ := ih a l₂
    have hsort : (xs ++ a :: ys).Sorted hookLe := by
      rw [← h1]
      exact List.sorted_insertionSort hookLe _
    obtain ⟨xs', ys', h3, h4⟩ := orderedInsert_middle c xs a ys hsort
    refine ⟨xs', ys', ?_, ?_⟩
    · rw [List.cons_append]
      show List.orderedInsert hookLe c (List.insertionSort hookLe (l₁ ++ a :: l₂)) = _
      rw [h1, h3]
    · rw [List.cons_append]
      show _ = List.orderedInsert hookLe c (List.insertionSort hookLe (l₁ ++ l₂))
      rw [h4, h2]

theorem runHooksLoop_ignores_none (trigger : HookTrigger) (ctx : HookContext)
    (exec : HookExec) (x : HookCfg) (hx : exec x ctx = none) :
    ∀ (xs ys : List HookCfg) (md : List (String × String)) (gr : List Grant),
      (runHooksLoop trigger ctx exec (xs ++ x :: ys) md gr).1 =
        (runHooksLoop trigger ctx exec (xs ++ ys) md gr).1 := by
  intro xs
  induction xs with
  | nil =>
    intro ys md gr
    simp [runHooksLoop, hx]
  | cons a xs ih =>
    intro ys md gr
    rw [List.cons_append, List.cons_append]
    cases hxa : exec a ctx with
    | none => simp [runHooksLoop, hxa, ih]
    | some r =>
      cases trigger with
      | pre_transfer =>
        by_cases hsk : r.action = HookAction.skip
        · simp [runHooksLoop, hxa, hsk]
        · by_cases hrd : r.action = HookAction.redirect
          · simp [runHooksLoop, hxa, hsk, hrd]
          · simp [runHooksLoop, hxa, hsk, hrd, ih]
      | post_transfer =>
        simp [runHooksLoop, hxa, ih]

/-- C8: a hook whose execution raises contributes nothing to the result — the
runner's result on a configuration list containing the raising hook equals its
result on the list with that hook removed, in both phases. -/
theorem run_hooks_raising_hook_as_if_absent (trigger : HookTrigger)
    (ctx : HookContext) (exec : HookExec) (l₁ l₂ : List HookCfg) (x : HookCfg)
    (hx : exec x ctx = none) :
    (run_hooks trigger ctx exec (l₁ ++ x :: l₂)).1 =
      (run_hooks trigger ctx exec (l₁ ++ l₂)).1 := by
  unfold run_hooks relevantHooks
  rw [List.filter_append, List.filter_append, List.filter_cons]
  by_cases hmatch : (decide (x.trigger = trigger) && x.enabled) = true
  · rw [if_pos hmatch]
    have hsplit := insertionSort_removal
      (l₁.filter (fun h => decide (h.trigger = trigger) && h.enabled)) x
      (l₂.filter (fun h => decide (h.trigger = trigger) && h.enabled))
    obtain ⟨xs, ys, h1, h2⟩ := hsplit
    rw [h1, runHooksLoop_ignores_none trigger ctx exec x hx xs ys [] [], h2]
  · rw [if_neg hmatch]

/-- A post-transfer hook configuration whose execution will raise. -/
def wRaisingCfg : HookCfg :=
  { name := "broken", trigger := HookTrigger.post_transfer,
    priority := 5, enabled := true }

/-- A well-behaved post-transfer hook configuration. -/
def wOkCfg : HookCfg :=
  { name := "enrich", trigger := HookTrigger.post_transfer,
    priority := 1, enabled := true }

/-- Oracle: the hook named `broken` raises, the rest succeed with one
metadata binding. -/
def wExecRaise : HookExec := fun c _ =>
  if c.name = "broken" then none
  else some { action := HookAction.proceed, metadata_updates := [("a", "1")] }

theorem run_hooks_raising_hook_as_if_absent_witness :
    (run_hooks HookTrigger.post_transfer wCtx wExecRaise
        ([wOkCfg] ++ wRaisingCfg :: [])).1 =
      (run_hooks HookTrigger.post_transfer wCtx wExecRaise ([wOkCfg] ++ [])).1 :=
  run_hooks_raising_hook_as_if_absent HookTrigger.post_transfer wCtx wExecRaise
    [wOkCfg] [] wRaisingCfg (by decide)

/-! ### Builtin hook: `AccessAssignmentHook.execute`
(`app/hooks/builtin/access_assignment.py`) -/

/-- One entry of the `grants` list of an access-assignment config, as the
hook reads it: `rule.get("grantee_type", "")`, `rule.get("match_field", "")`,
`rule.get("source", "metadata")`. -/
structure AccessRule where
  grantee_type : String
  match_field : String
  source : String
deriving DecidableEq, Repr

/-- Embeds `AccessAssignmentHook.execute`.  Python truthiness of the metadata value
(a string in this model) is non-emptiness. -/
def access_assignment_execute (grants : List AccessRule) (context : HookContext) :
    HookResult :=
  let access_grants := grants.foldl (fun acc rule =>
    if rule.grantee_type = "" ∨ rule.match_field = "" then acc
    else if rule.source = "literal" then
      acc ++ [Grant.literal rule.grantee_type rule.match_field]
    else if rule.source = "metadata" then
      match dictGet context.metadata rule.match_field with
      | some value => if value = "" then acc
          else acc ++ [Grant.deferred rule.grantee_type rule.match_field value]
      | none => acc
    else acc) []
  { action := HookAction.proceed, access_grants := access_grants }

/-! ### C6: accumulated metadata is NOT visible to later hooks of the same run

The runner accumulates `metadata_updates` in `merged_metadata` but never
writes them back into the `HookContext`, so an access-assignment `metadata`
rule can never see a field produced by an earlier hook of the same run. -/

/-- Context of the C6 run: empty metadata, as built by the harvest flow. -/
def c6Ctx : HookContext :=
  { source_path := "exp/a.tif", filename := "a.tif",
    instrument_id := "inst-1", instrument_name := "microscope",
    transfer_success := true }

/-- Post-transfer metadata-producing hook at priority 0. -/
def c6EnrichCfg : HookCfg :=
  { name := "enrich", trigger := HookTrigger.post_transfer,
    priority := 0, enabled := true }

/-- Post-transfer access-assignment hook at priority 10 with a `metadata`
rule on the field the priority-0 hook produces. -/
def c6AssignCfg : HookCfg :=
  { name := "assign", trigger := HookTrigger.post_transfer,
    priority := 10, enabled := true }

/-- Oracle: `enrich` returns `{"owner_group": "labA"}`; `assign` runs the real
`AccessAssignmentHook.execute` on the context it is handed. -/
def c6Exec : HookExec := fun c ctx =>
  if c.name = "enrich" then
    some { action := HookAction.proceed, metadata_updates := [("owner_group", "labA")] }
  else
    some (access_assignment_execute
      [{ grantee_type := "group", match_field := "owner_group", source := "metadata" }] ctx)

/-- C6 refutation: in a single post-transfer run whose first hook returns the
metadata binding `owner_group ↦ labA`, the later access-assignment hook's
`metadata` rule on `owner_group` emits no grant — the accumulated binding is
in the run's merged metadata but was never visible in the context handed to
the later hook, which still saw empty metadata. -/
theorem run_hooks_post_metadata_not_propagated :
    (run_hooks HookTrigger.post_transfer c6Ctx c6Exec [c6EnrichCfg, c6AssignCfg]).1.access_grants
        = [] ∧
    dictGet (run_hooks HookTrigger.post_transfer c6Ctx c6Exec
        [c6EnrichCfg, c6AssignCfg]).1.metadata_updates "owner_group" = some "labA" ∧
    (access_assignment_execute
        [{ grantee_type := "group", match_field := "owner_group", source := "metadata" }]
        { c6Ctx with metadata := [("owner_group", "labA")] }).access_grants
        = [Grant.deferred "group" "owner_group" "labA"] := by
  refine ⟨rfl, rfl, rfl⟩

/-! ### Access-resolution engine (`app/services/access.py`) -/

/-- Embeds `UserRole` from `app/models/user.py`. -/
inductive UserRole where
  | admin
  | user
deriving DecidableEq, Repr

/-- Embeds `GranteeType` from `app/models/access.py`. -/
inductive GranteeType where
  | user
  | group
  | project
deriving DecidableEq, Repr

/-- Embeds `MemberType` from `app/models/project.py`. -/
inductive MemberType where
  | user
  | group
deriving DecidableEq, Repr

/-- The fields of `User` that the access query reads; ids are numbers. -/
structure UserM where
  id : Nat
  role : UserRole
deriving DecidableEq, Repr

/-- The fields of `FileRecord` that the access query reads. -/
structure FileRecordM where
  id : Nat
  owner_id : Option Nat
deriving DecidableEq, Repr

/-- Embeds `GroupMembership` from `app/models/group.py`. -/
structure GroupMembershipM where
  group_id : Nat
  user_id : Nat
deriving DecidableEq, Repr

/-- Embeds `ProjectMembership` rows read by the access query. -/
structure ProjectMembershipM where
  project_id : Nat
  member_type : MemberType
  member_id : Nat
deriving DecidableEq, Repr

/-- Embeds `FileAccessGrant` rows read by the access query. -/
structure FileAccessGrantM where
  file_id : Nat
  grantee_type : GranteeType
  grantee_id : Nat
deriving DecidableEq, Repr

/-- The tables the access query touches. -/
structure AccessDb where
  files : List FileRecordM
  group_memberships : List GroupMembershipM
  project_memberships : List ProjectMembershipM
  grants : List FileAccessGrantM
deriving Repr

/-- The `user_groups` subquery of `accessible_file_ids`. -/
def user_groups (db : AccessDb) (u : UserM) : List Nat :=
  (db.group_memberships.filter (fun m => decide (m.user_id = u.id))).map
    (fun m => m.group_id)

/-- The `user_projects_direct` subquery. -/
def user_projects_direct (db : AccessDb) (u : UserM) : List Nat :=
  (db.project_memberships.filter (fun m =>
    decide (m.member_type = MemberType.user) && decide (m.member_id = u.id))).map
    (fun m => m.project_id)

/-- The `user_projects_via_group` subquery. -/
def user_projects_via_group (db : AccessDb) (u : UserM) : List Nat :=
  (db.project_memberships.filter (fun m =>
    decide (m.member_type = MemberType.group) &&
      decide (m.member_id ∈ user_groups db u))).map
    (fun m => m.project_id)

/-- The `user_projects` subquery (`union_all` keeps duplicates; membership is
what matters downstream). -/
def user_projects (db : AccessDb) (u : UserM) : List Nat :=
  user_projects_direct db u ++ user_projects_via_group db u

/-- Embeds `accessible_file_ids` from `app/services/access.py`. -/
def accessible_file_ids (db : AccessDb) (u : UserM) : List Nat :=
  (db.grants.filter (fun g =>
    (decide (g.grantee_type = GranteeType.user) && decide (g.grantee_id = u.id)) ||
    (decide (g.grantee_type = GranteeType.group) &&
      decide (g.grantee_id ∈ user_groups db u)) ||
    (decide (g.grantee_type = GranteeType.project) &&
      decide (g.grantee_id ∈ user_projects db u)))).map
    (fun g => g.file_id)

/-- Embeds `apply_file_access_filter` from `app/services/access.py`, applied to the
full `FileRecord` table. -/
def apply_file_access_filter (db : AccessDb) (u : UserM) : List FileRecordM :=
  if u.role = UserRole.admin then db.files
  else
    db.files.filter (fun f =>
      decide (f.owner_id = some u.id) ||
      decide (f.id ∈ accessible_file_ids db u))

/-- C3: a privileged user sees every record; a non-privileged user U sees F
iff U owns F, or a user grant targets U, or a group grant targets one of U's
groups, or a project grant targets a project having U as direct member or
having one of U's groups as member. -/
theorem apply_file_access_filter_correct (db : AccessDb) (u : UserM)
    (f : FileRecordM) :
    (u.role = UserRole.admin → apply_file_access_filter db u = db.files) ∧
    (u.role ≠ UserRole.admin →
      (f ∈ apply_file_access_filter db u ↔
        f ∈ db.files ∧
          (f.owner_id = some u.id ∨
           (∃ g ∈ db.grants, g.file_id = f.id ∧
              g.grantee_type = GranteeType.user ∧ g.grantee_id = u.id) ∨
           (∃ g ∈ db.grants, g.file_id = f.id ∧
              g.grantee_type = GranteeType.group ∧
              ∃ m ∈ db.group_memberships,
                m.user_id = u.id ∧ m.group_id = g.grantee_id) ∨
           (∃ g ∈ db.grants, g.file_id = f.id ∧
              g.grantee_type = GranteeType.project ∧
              ((∃ m ∈ db.project_memberships,
                  m.member_type = MemberType.user ∧ m.member_id = u.id ∧
                  m.project_id = g.grantee_id) ∨
               (∃ m ∈ db.project_memberships,
                  m.member_type = MemberType.group ∧
                  m.project_id = g.grantee_id ∧
                  ∃ gm ∈ db.group_memberships,
                    gm.user_id = u.id ∧ gm.group_id = m.member_id)))))) := by
  constructor
  · intro hadmin
    unfold apply_file_access_filter
    rw [if_pos hadmin]
  · intro hrole
    unfold apply_file_access_filter
    rw [if_neg hrole]
    rw [List.mem_filter]
    have hgroups : ∀ gid : Nat, gid ∈ user_groups db u ↔
        ∃ m ∈ db.group_memberships, m.user_id = u.id ∧ m.group_id = gid := by
      intro gid
      unfold user_groups
      simp only [List.mem_map, List.mem_filter, decide_eq_true_eq]
      constructor
      · rintro ⟨m, ⟨hm, hu⟩, hg⟩; exact ⟨m, hm, hu, hg⟩
      · rintro ⟨m, hm, hu, hg⟩; exact ⟨m, ⟨hm, hu⟩, hg⟩
    have hprojects : ∀ pid : Nat, pid ∈ user_projects db u ↔
        ((∃ m ∈ db.project_memberships,
            m.member_type = MemberType.user ∧ m.member_id = u.id ∧
            m.project_id = pid) ∨
         (∃ m ∈ db.project_memberships,
            m.member_type = MemberType.group ∧ m.project_id = pid ∧
            ∃ gm ∈ db.group_memberships,
              gm.user_id = u.id ∧ gm.group_id = m.member_id)) := by
      intro pid
      unfold user_projects user_projects_direct user_projects_via_group
      simp only [List.mem_append, List.mem_map, List.mem_filter,
        Bool.and_eq_true, decide_eq_true_eq]
      constructor
      · rintro (⟨m, ⟨hm, ht, hu⟩, hp⟩ | ⟨m, ⟨hm, ht, hg⟩, hp⟩)
        · exact Or.inl ⟨m, hm, ht, hu, hp⟩
        · rcases (hgroups m.member_id).1 hg with ⟨gm, hgm, hgu, hgg⟩
          exact Or.inr ⟨m, hm, ht, hp, gm, hgm, hgu, hgg⟩
      · rintro (⟨m, hm, ht, hu, hp⟩ | ⟨m, hm, ht, hp, gm, hgm, hgu, hgg⟩)
        · exact Or.inl ⟨m, ⟨hm, ht, hu⟩, hp⟩
        · exact Or.inr ⟨m, ⟨hm, ht,
            (hgroups m.member_id).2 ⟨gm, hgm, hgu, hgg⟩⟩, hp⟩
    have hacc : f.id ∈ accessible_file_ids db u ↔
        ((∃ g ∈ db.grants, g.file_id = f.id ∧
            g.grantee_type = GranteeType.user ∧ g.grantee_id = u.id) ∨
         (∃ g ∈ db.grants, g.file_id = f.id ∧
            g.grantee_type = GranteeType.group ∧
            ∃ m ∈ db.group_memberships,
              m.user_id = u.id ∧ m.group_id = g.grantee_id) ∨
         (∃ g ∈ db.grants, g.file_id = f.id ∧
            g.grantee_type = GranteeType.project ∧
            ((∃ m ∈ db.project_memberships,
                m.member_type = MemberType.user ∧ m.member_id = u.id ∧
                m.project_id = g.grantee_id) ∨
             (∃ m ∈ db.project_memberships,
                m.member_type = MemberType.group ∧
                m.project_id = g.grantee_id ∧
                ∃ gm ∈ db.group_memberships,
                  gm.user_id = u.id ∧ gm.group_id = m.member_id)))) := by
      unfold accessible_file_ids
      simp only [List.mem_map, List.mem_filter, Bool.or_eq_true,
        Bool.and_eq_true, decide_eq_true_eq]
      constructor
      · rintro ⟨g, ⟨hg, ((⟨ht, hu⟩ | ⟨ht, hmem⟩) | ⟨ht, hmem⟩)⟩, hf⟩
        · exact Or.inl ⟨g, hg, hf, ht, hu⟩
        · rcases (hgroups g.grantee_id).1 hmem with ⟨m, hm, hmu, hmg⟩
          exact Or.inr (Or.inl ⟨g, hg, hf, ht, m, hm, hmu, hmg⟩)
        · exact Or.inr (Or.inr ⟨g, hg, hf, ht, (hprojects g.grantee_id).1 hmem⟩)
      · rintro (⟨g, hg, hf, ht, hu⟩ | ⟨g, hg, hf, ht, m, hm, hmu, hmg⟩ |
          ⟨g, hg, hf, ht, hvia⟩)
        · exact ⟨g, ⟨hg, Or.inl (Or.inl ⟨ht, hu⟩)⟩, hf⟩
        · exact ⟨g, ⟨hg, Or.inl (Or.inr ⟨ht,
            (hgroups g.grantee_id).2 ⟨m, hm, hmu, hmg⟩⟩)⟩, hf⟩
        · exact ⟨g, ⟨hg, Or.inr ⟨ht,
            (hprojects g.grantee_id).2 hvia⟩⟩, hf⟩
    simp only [Bool.or_eq_true, decide_eq_true_eq]
    rw [hacc]

/-- Spec §8 access-transitivity scenario: user 1 is in group 10, group 10 is
a project-member of project 20, and file 100 has a project-20 grant. -/
def c3Db : AccessDb :=
  { files := [{ id := 100, owner_id := none }],
    group_memberships := [{ group_id := 10, user_id := 1 }],
    project_memberships := [{ project_id := 20, member_type := MemberType.group,
                              member_id := 10 }],
    grants := [{ file_id := 100, grantee_type := GranteeType.project,
                 grantee_id := 20 }] }

/-- The non-privileged user of the scenario. -/
def c3User : UserM := { id := 1, role := UserRole.user }

/-- The file of the scenario. -/
def c3File : FileRecordM := { id := 100, owner_id := none }

theorem apply_file_access_filter_correct_witness :
    c3User.role ≠ UserRole.admin ∧ c3File ∈ apply_file_access_filter c3Db c3User :=
  ⟨by decide,
   ((apply_file_access_filter_correct c3Db c3User c3File).2 (by decide)).mpr
     (by decide)⟩

/-! ### Discovery service (`app/services/discovery.py`) -/

/-- Embeds `DiscoveredFile` from `app/transfers/base.py` (the fields discovery
reads). -/
structure DiscoveredFile where
  path : String
  filename : String
  size_bytes : Nat
deriving DecidableEq, Repr

/-- The columns of `FileRecord` that discovery reads. -/
structure FileRecordRow where
  instrument_id : Nat
  source_path : String
deriving DecidableEq, Repr

/-- Embeds `discover_new_files`.  The boolean records whether the known-paths
database lookup was performed (the code returns `[]` before querying when the
input list is empty). -/
def discover_new_files (instrument_id : Nat) (discovered : List DiscoveredFile)
    (records : List FileRecordRow) : List DiscoveredFile × Bool :=
  if discovered.isEmpty then ([], false)
  else
    let known_paths :=
      (records.filter (fun r => decide (r.instrument_id = instrument_id))).map
        (fun r => r.source_path)
    (discovered.filter (fun f => ! known_paths.contains f.path), true)

/-- C4: discovery returns exactly the discovered entries whose path is not
among the source paths recorded for the instrument; a recorded path never
reappears as new for that instrument; and an empty input yields an empty
output without performing the recorded-paths lookup. -/
theorem discover_new_files_correct (instrument_id : Nat)
    (records : List FileRecordRow) (discovered : List DiscoveredFile) :
    (∀ f, f ∈ (discover_new_files instrument_id discovered records).1 ↔
      (f ∈ discovered ∧
        ¬ ∃ r ∈ records, r.instrument_id = instrument_id ∧
            r.source_path = f.path)) ∧
    (∀ r ∈ records, r.instrument_id = instrument_id →
      ∀ f ∈ (discover_new_files instrument_id discovered records).1,
        f.path ≠ r.source_path) ∧
    discover_new_files instrument_id [] records = ([], false) := by
  have hmem : ∀ f, f ∈ (discover_new_files instrument_id discovered records).1 ↔
      (f ∈ discovered ∧
        ¬ ∃ r ∈ records, r.instrument_id = instrument_id ∧
            r.source_path = f.path) := by
    intro f
    unfold discover_new_files
    cases discovered with
    | nil => simp
    | cons d t =>
      rw [if_neg (by simp)]
      simp only [List.mem_filter, Bool.not_eq_eq_eq_not, Bool.not_true,
        List.contains_eq_any_beq, List.any_eq_false, List.mem_map,
        List.mem_filter, decide_eq_true_eq, beq_iff_eq]
      constructor
      · rintro ⟨hf, hknown⟩
        refine ⟨hf, ?_⟩
        rintro ⟨r, hr, hinst, hpath⟩
        exact hknown r.source_path ⟨r, ⟨hr, hinst⟩, rfl⟩ hpath.symm
      · rintro ⟨hf, hnone⟩
        refine ⟨hf, ?_⟩
        rintro p ⟨r, ⟨hr, hinst⟩, hp⟩ heq
        exact hnone ⟨r, hr, hinst, hp.trans heq.symm⟩
  refine ⟨hmem, ?_, by simp [discover_new_files]⟩
  intro r hr hinst f hf heq
  exact ((hmem f).1 hf).2 ⟨r, hr, hinst, heq.symm⟩

/-- Concrete discovery scenario: `exp/a.tif` is already recorded for
instrument 1, `exp/b.tmp` is not. -/
def c4Records : List FileRecordRow := [{ instrument_id := 1, source_path := "exp/a.tif" }]

/-- The remote listing of the scenario. -/
def c4Discovered : List DiscoveredFile :=
  [{ path := "exp/a.tif", filename := "a.tif", size_bytes := 1024 },
   { path := "exp/b.tmp", filename := "b.tmp", size_bytes := 10 }]

/-- The entry of the listing that is new. -/
def c4NewFile : DiscoveredFile := { path := "exp/b.tmp", filename := "b.tmp", size_bytes := 10 }

theorem discover_new_files_correct_witness :
    c4NewFile ∈ (discover_new_files 1 c4Discovered c4Records).1 ∧
    c4NewFile.path ≠ "exp/a.tif" :=
  ⟨by decide,
   (discover_new_files_correct 1 c4Records c4Discovered).2.1
     { instrument_id := 1, source_path := "exp/a.tif" } (by decide) rfl
     c4NewFile (by decide)⟩

/-! ### Identifier minting (`app/services/identifiers.py`)

`mint_ark` computes `f"ark:/{naan}/{shoulder}{qualifier}"` with
`qualifier = base64.b32encode(uuid.bytes).decode().rstrip("=").lower()`.
The sixteen random UUID bytes are made an explicit argument. -/

/-- The eight bits of one byte, most significant first. -/
def byteBits (n : Nat) : List Bool :=
  [n.testBit 7, n.testBit 6, n.testBit 5, n.testBit 4,
   n.testBit 3, n.testBit 2, n.testBit 1, n.testBit 0]

/-- The bit stream of a byte string, most significant bit first. -/
def toBits (bs : List Nat) : List Bool := bs.flatMap byteBits

/-- Value of one 5-bit base32 group, most significant bit first. -/
def val5 (a b c d e : Bool) : Nat :=
  16 * a.toNat + 8 * b.toNat + 4 * c.toNat + 2 * d.toNat + e.toNat

/-- RFC 4648 grouping: 5 bits per group, the final partial group zero-padded
on the right. -/
def group5 : List Bool → List Nat
  | a :: b :: c :: d :: e :: rest => val5 a b c d e :: group5 rest
  | [a, b, c, d] => [val5 a b c d false]
  | [a, b, c] => [val5 a b c false false]
  | [a, b] => [val5 a b false false false]
  | [a] => [val5 a false false false false]
  | [] => []

/-- The RFC 4648 base32 alphabet used by `base64.b32encode`. -/
def B32_UPPER : List Char := "ABCDEFGHIJKLMNOPQRSTUVWXYZ234567".data

/-- Group value to alphabet character. -/
def b32char (v : Nat) : Char := B32_UPPER.getD v '?'

/-- Embeds `base64.b32encode`: alphabet characters for every 5-bit group, then `=`
padding up to a multiple of eight characters. -/
def b32encode (bs : List Nat) : List Char :=
  let chars := (group5 (toBits bs)).map b32char
  chars ++ List.replicate ((8 - chars.length % 8) % 8) '='

/-- Python `str.rstrip("=")`. -/
def rstripEq (s : List Char) : List Char :=
  (s.reverse.dropWhile (fun c => decide (c = '='))).reverse

/-- Embeds `_uuid_to_base32` from `app/services/identifiers.py`:
`b32encode(u.bytes).decode().rstrip("=").lower()`. -/
def uuid_to_base32 (u : List Nat) : String :=
  String.mk ((rstripEq (b32encode u)).map Char.toLower)

/-- Embeds `mint_ark` from `app/services/identifiers.py`, with the fresh UUID's
bytes passed explicitly. -/
def mint_ark (naan shoulder : String) (u : List Nat) : String :=
  "ark:/" ++ naan ++ "/" ++ shoulder ++ uuid_to_base32 u

/-! #### Decoder (verification artifact, a left inverse of the qualifier
encoding on 16-byte strings) -/

/-- The five bits of a group value, most significant first. -/
def bit5 (v : Nat) : List Bool :=
  [v.testBit 4, v.testBit 3, v.testBit 2, v.testBit 1, v.testBit 0]

/-- Bit stream of a group-value list. -/
def ungroup5 (vs : List Nat) : List Bool := vs.flatMap bit5

/-- Byte value from eight bits, most significant first. -/
def val8 (b7 b6 b5 b4 b3 b2 b1 b0 : Bool) : Nat :=
  128 * b7.toNat + 64 * b6.toNat + 32 * b5.toNat + 16 * b4.toNat +
    8 * b3.toNat + 4 * b2.toNat + 2 * b1.toNat + b0.toNat

/-- Regroup a bit stream into bytes, dropping a trailing partial byte. -/
def group8 : List Bool → List Nat
  | b7 :: b6 :: b5 :: b4 :: b3 :: b2 :: b1 :: b0 :: rest =>
      val8 b7 b6 b5 b4 b3 b2 b1 b0 :: group8 rest
  | _ => []

/-- The lowercase base32 alphabet (what the minted qualifier is written in). -/
def LC_B32 : List Char := "abcdefghijklmnopqrstuvwxyz234567".data

/-- Index of a character in the lowercase alphabet. -/
def lcIdx (c : Char) : Nat := LC_B32.findIdx (fun x => decide (x = c))

/-- Decode a minted qualifier back to bytes. -/
def b32decodeQual (s : List Char) : List Nat :=
  group8 (ungroup5 (s.map lcIdx))

theorem bit5_val5 : ∀ a b c d e : Bool, bit5 (val5 a b c d e) = [a, b, c, d, e] := by
  decide

theorem val5_lt : ∀ a b c d e : Bool, val5 a b c d e < 32 := by decide

set_option maxRecDepth 4000 in
theorem val8_testBit : ∀ n < 256,
    val8 (n.testBit 7) (n.testBit 6) (n.testBit 5) (n.testBit 4)
      (n.testBit 3) (n.testBit 2) (n.testBit 1) (n.testBit 0) = n := by
  decide

theorem lcIdx_toLower_b32char : ∀ v < 32, lcIdx (Char.toLower (b32char v)) = v := by
  decide

theorem b32char_ne_pad : ∀ v < 32, b32char v ≠ '=' := by decide

theorem toLower_b32char_mem : ∀ v < 32, Char.toLower (b32char v) ∈ LC_B32 := by
  decide

theorem group5_length : ∀ l : List Bool, (group5 l).length = (l.length + 4) / 5 := by
  intro l
  induction l using group5.induct with
  | case1 a b c d e rest ih => simp [group5, ih]; omega
  | case2 a b c d => simp [group5]
  | case3 a b c => simp [group5]
  | case4 a b => simp [group5]
  | case5 a => simp [group5]
  | case6 => simp [group5]

theorem group5_lt : ∀ l : List Bool, ∀ v ∈ group5 l, v < 32 := by
  intro l
  induction l using group5.induct with
  | case1 a b c d e rest ih =>
    intro v hv
    rcases List.mem_cons.1 hv with h | h
    · exact h ▸ val5_lt a b c d e
    · exact ih v h
  | case2 a b c d =>
    intro v hv
    rcases List.mem_singleton.1 hv with rfl
    exact val5_lt a b c d false
  | case3 a b c =>
    intro v hv
    rcases List.mem_singleton.1 hv with rfl
    exact val5_lt a b c false false
  | case4 a b =>
    intro v hv
    rcases List.mem_singleton.1 hv with rfl
    exact val5_lt a b false false false
  | case5 a =>
    intro v hv
    rcases List.mem_singleton.1 hv with rfl
    exact val5_lt a false false false false
  | case6 => intro v hv; simp [group5] at hv

theorem ungroup5_group5 : ∀ l : List Bool,
    ungroup5 (group5 l) = l ++ List.replicate ((5 - l.length % 5) % 5) false := by
  intro l
  induction l using group5.induct with
  | case1 a b c d e rest ih =>
    show ungroup5 (val5 a b c d e :: group5 rest) = _
    rw [show ungroup5 (val5 a b c d e :: group5 rest) =
      bit5 (val5 a b c d e) ++ ungroup5 (group5 rest) from rfl]
    rw [bit5_val5, ih]
    have harith : (5 - ((a :: b :: c :: d :: e :: rest).length) % 5) % 5 =
        (5 - rest.length % 5) % 5 := by
      simp only [List.length_cons]
      omega
    rw [harith]
    rfl
  | case2 a b c d =>
    show ungroup5 [val5 a b c d false] = _
    rw [show ungroup5 [val5 a b c d false] = bit5 (val5 a b c d false) ++ [] from rfl]
    rw [bit5_val5]
    rfl
  | case3 a b c =>
    show ungroup5 [val5 a b c false false] = _
    rw [show ungroup5 [val5 a b c false false] =
      bit5 (val5 a b c false false) ++ [] from rfl]
    rw [bit5_val5]
    rfl
  | case4 a b =>
    show ungroup5 [val5 a b false false false] = _
    rw [show ungroup5 [val5 a b false false false] =
      bit5 (val5 a b false false false) ++ [] from rfl]
    rw [bit5_val5]
    rfl
  | case5 a =>
    show ungroup5 [val5 a false false false false] = _
    rw [show ungroup5 [val5 a false false false false] =
      bit5 (val5 a false false false false) ++ [] from rfl]
    rw [bit5_val5]
    rfl
  | case6 => rfl

theorem toBits_length : ∀ bs : List Nat, (toBits bs).length = 8 * bs.length := by
  intro bs
  induction bs with
  | nil => rfl
  | cons n t ih =>
    show (byteBits n ++ toBits t).length = _
    rw [List.length_append, ih]
    simp [byteBits]
    omega

theorem group8_toBits_append : ∀ (bs : List Nat) (t : List Bool),
    (∀ b ∈ bs, b < 256) →
    group8 (toBits bs ++ t) = bs ++ group8 t := by
  intro bs
  induction bs with
  | nil => intro t _; rfl
  | cons n bs ih =>
    intro t hlt
    show group8 ((byteBits n ++ toBits bs) ++ t) = _
    rw [List.append_assoc]
    show val8 (n.testBit 7) (n.testBit 6) (n.testBit 5) (n.testBit 4)
        (n.testBit 3) (n.testBit 2) (n.testBit 1) (n.testBit 0) ::
        group8 (toBits bs ++ t) = _
    rw [val8_testBit n (hlt n (List.mem_cons_self n bs)),
      ih t (fun b hb => hlt b (List.mem_cons_of_mem n hb))]
    rfl

theorem dropWhile_pad_append : ∀ (k : Nat) (t : List Char),
    List.dropWhile (fun c => decide (c = '=')) (List.replicate k '=' ++ t) =
      List.dropWhile (fun c => decide (c = '=')) t := by
  intro k
  induction k with
  | zero => intro t; rfl
  | succ k ih =>
    intro t
    rw [List.replicate_succ, List.cons_append, List.dropWhile_cons]
    simp [ih]

theorem dropWhile_no_pad (t : List Char) (h : ∀ c ∈ t, c ≠ '=') :
    List.dropWhile (fun c => decide (c = '=')) t = t := by
  cases t with
  | nil => rfl
  | cons c t =>
    rw [List.dropWhile_cons]
    simp [h c (List.mem_cons_self c t)]

theorem rstripEq_append_pad (xs : List Char) (k : Nat)
    (h : ∀ c ∈ xs, c ≠ '=') :
    rstripEq (xs ++ List.replicate k '=') = xs := by
  unfold rstripEq
  rw [List.reverse_append, List.reverse_replicate, dropWhile_pad_append,
    dropWhile_no_pad _ (fun c hc => h c (List.mem_reverse.1 hc)),
    List.reverse_reverse]

/-- The minted qualifier is exactly the lowercase alphabet characters of the
5-bit groups, with the `=` padding stripped. -/
theorem uuid_to_base32_data (bs : List Nat) :
    (uuid_to_base32 bs).data =
      ((group5 (toBits bs)).map b32char).map Char.toLower := by
  show ((rstripEq (b32encode bs)).map Char.toLower) = _
  unfold b32encode
  rw [rstripEq_append_pad]
  intro c hc
  rcases List.mem_map.1 hc with ⟨v, hv, rfl⟩
  exact b32char_ne_pad v (group5_lt _ v hv)

theorem b32decodeQual_uuid_to_base32 (bs : List Nat)
    (hlen : bs.length = 16) (hlt : ∀ b ∈ bs, b < 256) :
    b32decodeQual (uuid_to_base32 bs).data = bs := by
  rw [uuid_to_base32_data]
  unfold b32decodeQual
  rw [List.map_map, List.map_map]
  have hmapid : (group5 (toBits bs)).map ((lcIdx ∘ Char.toLower) ∘ b32char) =
      group5 (toBits bs) := by
    rw [show group5 (toBits bs) = (group5 (toBits bs)).map id by simp]
    rw [List.map_map]
    apply List.map_congr_left
    intro v hv
    simp only [Function.comp_apply, id]
    exact lcIdx_toLower_b32char v (group5_lt _ v (by simpa using hv))
  rw [hmapid, ungroup5_group5, toBits_length, hlen]
  norm_num
  rw [show (List.replicate 2 false) = [false, false] from rfl]
  rw [group8_toBits_append bs [false, false] hlt,
    show group8 [false, false] = [] from rfl, List.append_nil]

/-- C9: every minted identifier is `ark:/<naan>/<shoulder>` followed by the
unpadded lowercase base32 qualifier of the UUID's sixteen bytes (26 lowercase
base32-alphabet characters), and minting is injective in the UUID for fixed
NAAN and shoulder. -/
theorem mint_ark_correct (naan shoulder : String) (u1 u2 : List Nat)
    (hlen1 : u1.length = 16) (hlt1 : ∀ b ∈ u1, b < 256)
    (hlen2 : u2.length = 16) (hlt2 : ∀ b ∈ u2, b < 256) :
    mint_ark naan shoulder u1 =
        "ark:/" ++ naan ++ "/" ++ shoulder ++ uuid_to_base32 u1 ∧
    (uuid_to_base32 u1).data.length = 26 ∧
    (∀ c ∈ (uuid_to_base32 u1).data, c ∈ LC_B32) ∧
    (mint_ark naan shoulder u1 = mint_ark naan shoulder u2 → u1 = u2) := by
  refine ⟨rfl, ?_, ?_, ?_⟩
  · rw [uuid_to_base32_data]
    simp only [List.length_map]
    rw [group5_length, toBits_length, hlen1]
  · intro c hc
    rw [uuid_to_base32_data] at hc
    rcases List.mem_map.1 hc with ⟨c', hc', rfl⟩
    rcases List.mem_map.1 hc' with ⟨v, hv, rfl⟩
    exact toLower_b32char_mem v (group5_lt _ v hv)
  · intro heq
    have hdata := congrArg String.data heq
    simp only [mint_ark, String.data_append] at hdata
    have hq : (uuid_to_base32 u1).data = (uuid_to_base32 u2).data := by
      exact List.append_cancel_left hdata
    have := congrArg b32decodeQual hq
    rwa [b32decodeQual_uuid_to_base32 u1 hlen1 hlt1,
      b32decodeQual_uuid_to_base32 u2 hlen2 hlt2] at this

/-- A 16-byte witness UUID (all zero bytes). -/
def c9U1 : List Nat := List.replicate 16 0

theorem mint_ark_correct_witness :
    (uuid_to_base32 c9U1).data.length = 26 ∧ c9U1 = c9U1 := by
  obtain ⟨_, hlen26, _, hinj⟩ :=
    mint_ark_correct "12345" "x7" c9U1 c9U1 (by decide) (by decide) (by decide) (by decide)
  exact ⟨hlen26, hinj rfl⟩

/-! ### Harvest orchestrator (`app/flows/harvest.py`)

`transfer_single_file_task` and `harvest_instrument_flow`, with the database
session modelled as an event trace, the fresh UUID/identifier and the adapter
as oracles, and hook execution as in the runner model.  `Except.error e`
models an exception raised by `adapter.transfer_file`. -/

/-- Embeds `TransferResult` from `app/transfers/base.py`. -/
structure TransferResult where
  success : Bool
  source_path : String
  destination_path : String
  bytes_transferred : Nat := 0
  source_checksum : String := ""
  dest_checksum : String := ""
  checksum_verified : Bool := false
  error_message : String := ""
deriving DecidableEq, Repr

/-- Embeds `TransferStatus` from `app/models/transfer.py`. -/
inductive TransferStatus where
  | pending
  | in_progress
  | completed
  | failed
  | skipped
deriving DecidableEq, Repr

/-- Database effects of one run of `transfer_single_file_task`, in program
order. -/
inductive HarvestEv where
  | mint (pid : String)
  | insertFileRecord (pid : String) (source_path : String)
  | ranHooks (trigger : HookTrigger)
  | insertTransfer (status : TransferStatus) (destination_path : String)
      (error_message : String)
  | setTransferStatus (status : TransferStatus) (error_message : String)
  | setFileChecksum (checksum : String)
deriving DecidableEq, Repr

/-- The serializable result of one `transfer_single_file_task` run, plus its
event trace. -/
structure TaskOutcome where
  status : String
  message : String := ""
  error : String := ""
  events : List HarvestEv
deriving DecidableEq, Repr

/-- The `HookContext` built by `transfer_single_file_task`. -/
def buildCtx (instrument_id instrument_name storage_base_path : String)
    (f : DiscoveredFile) : HookContext :=
  { source_path := f.path, filename := f.filename,
    instrument_id := instrument_id, instrument_name := instrument_name,
    size_bytes := f.size_bytes,
    destination_path := storage_base_path ++ "/" ++ instrument_name ++ "/" ++ f.path }

/-- The destination path after the pre-transfer hooks have run: rewritten on
`redirect`, the schedule default otherwise. -/
def finalDest (instrument_name storage_base_path : String) (f : DiscoveredFile)
    (pre_result : HookResult) : String :=
  if pre_result.action = HookAction.redirect then
    pre_result.redirect_path ++ "/" ++ instrument_name ++ "/" ++ f.path
  else
    storage_base_path ++ "/" ++ instrument_name ++ "/" ++ f.path

/-- Embeds `transfer_single_file_task` from `app/flows/harvest.py`.  Program order:
mint the identifier, insert the FileRecord, build the context, run the
pre-transfer hooks (skip → `skipped` FileTransfer row with the hook's
message, stop; redirect → rewrite destination), insert the `in_progress`
FileTransfer row, invoke the adapter (exception or failed result → mark the
row `failed` with the error, stop), mark `completed`, copy the checksum, run
the post-transfer hooks. -/
def transfer_single_file_task (instrument_id instrument_name : String)
    (hook_configs : List HookCfg) (storage_base_path : String) (exec : HookExec)
    (transfer_file : String → String → Except String TransferResult)
    (pid : String) (f : DiscoveredFile) : TaskOutcome :=
  let hook_ctx := buildCtx instrument_id instrument_name storage_base_path f
  let ev0 := [HarvestEv.mint pid, HarvestEv.insertFileRecord pid f.path]
  let pre_result := (run_hooks HookTrigger.pre_transfer hook_ctx exec hook_configs).1
  let ev1 := ev0 ++ [HarvestEv.ranHooks HookTrigger.pre_transfer]
  if pre_result.action = HookAction.skip then
    { status := "skipped", message := pre_result.message,
      events := ev1 ++
        [HarvestEv.insertTransfer TransferStatus.skipped "" pre_result.message] }
  else
    let destination_path := finalDest instrument_name storage_base_path f pre_result
    let ev2 := ev1 ++
      [HarvestEv.insertTransfer TransferStatus.in_progress destination_path ""]
    match transfer_file f.path destination_path with
    | Except.error e =>
      { status := "failed", error := e,
        events := ev2 ++ [HarvestEv.setTransferStatus TransferStatus.failed e] }
    | Except.ok tr =>
      if tr.success = false then
        { status := "failed", error := tr.error_message,
          events := ev2 ++
            [HarvestEv.setTransferStatus TransferStatus.failed tr.error_message] }
      else
        let ev3 := ev2 ++ [HarvestEv.setTransferStatus TransferStatus.completed ""]
        let ev4 := if tr.dest_checksum = "" then ev3
          else ev3 ++ [HarvestEv.setFileChecksum tr.dest_checksum]
        let post_ctx :=
          { hook_ctx with transfer_success := true, checksum := tr.dest_checksum }
        let _post_result :=
          (run_hooks HookTrigger.post_transfer post_ctx exec hook_configs).1
        { status := "completed",
          events := ev4 ++ [HarvestEv.ranHooks HookTrigger.post_transfer] }

/-- The per-run summary returned by `harvest_instrument_flow`. -/
structure FlowSummary where
  total_discovered : Nat
  new_files : Nat
  transferred : Nat
  skipped : Nat
  failed : Nat
deriving DecidableEq, Repr

/-- Embeds `harvest_instrument_flow` from `app/flows/harvest.py`: discover and
deduplicate, terminate early with a zero summary when nothing is new,
otherwise run `transfer_single_file_task` on each new file in order and count
the outcome statuses. -/
def harvest_instrument_flow (instrument_id : Nat)
    (instrument_id_str instrument_name : String) (hook_configs : List HookCfg)
    (storage_base_path : String) (exec : HookExec)
    (transfer_file : String → String → Except String TransferResult)
    (mint : DiscoveredFile → String) (records : List FileRecordRow)
    (discovered : List DiscoveredFile) : FlowSummary × List TaskOutcome :=
  let new_files := (discover_new_files instrument_id discovered records).1
  if new_files.isEmpty then
    ({ total_discovered := discovered.length, new_files := 0,
       transferred := 0, skipped := 0, failed := 0 }, [])
  else
    let results := new_files.map (fun f =>
      transfer_single_file_task instrument_id_str instrument_name hook_configs
        storage_base_path exec transfer_file (mint f) f)
    ({ total_discovered := discovered.length,
       new_files := new_files.length,
       transferred := results.countP (fun r => decide (r.status = "completed")),
       skipped := results.countP (fun r => decide (r.status = "skipped")),
       failed := results.countP (fun r => decide (r.status = "failed")) },
     results)

/-- Every run of the per-file task ends in exactly one of the three terminal
statuses. -/
theorem task_status_cases (instrument_id instrument_name : String)
    (hook_configs : List HookCfg) (storage_base_path : String) (exec : HookExec)
    (transfer_file : String → String → Except String TransferResult)
    (pid : String) (f : DiscoveredFile) :
    (transfer_single_file_task instrument_id instrument_name hook_configs
        storage_base_path exec transfer_file pid f).status = "completed" ∨
    (transfer_single_file_task instrument_id instrument_name hook_configs
        storage_base_path exec transfer_file pid f).status = "skipped" ∨
    (transfer_single_file_task instrument_id instrument_name hook_configs
        storage_base_path exec transfer_file pid f).status = "failed" := by
  unfold transfer_single_file_task
  dsimp only
  by_cases hskip : (run_hooks HookTrigger.pre_transfer
      (buildCtx instrument_id instrument_name storage_base_path f) exec
      hook_configs).1.action = HookAction.skip
  · rw [if_pos hskip]
    right; left; rfl
  · rw [if_neg hskip]
    cases htf : transfer_file f.path (finalDest instrument_name storage_base_path f
        (run_hooks HookTrigger.pre_transfer
          (buildCtx instrument_id instrument_name storage_base_path f) exec
          hook_configs).1) with
    | error e => right; right; rfl
    | ok tr =>
      dsimp only
      by_cases hsucc : tr.success = false
      · rw [if_pos hsucc]
        right; right; rfl
      · rw [if_neg hsucc]
        left; rfl

theorem countP_status_partition (l : List TaskOutcome)
    (h : ∀ r ∈ l, r.status = "completed" ∨ r.status = "skipped" ∨
      r.status = "failed") :
    l.countP (fun r => decide (r.status = "completed")) +
      l.countP (fun r => decide (r.status = "skipped")) +
      l.countP (fun r => decide (r.status = "failed")) = l.length := by
  induction l with
  | nil => rfl
  | cons a t ih =>
    have ha := h a (List.mem_cons_self a t)
    have ht := ih (fun r hr => h r (List.mem_cons_of_mem a hr))
    simp only [List.countP_cons, List.length_cons]
    rcases ha with h1 | h1 | h1 <;> simp [h1] <;> omega

/-- C10: the summary counts partition the new files (`transferred + skipped +
failed = new_files`), the discovered total is reported, and a run with no new
files reports an all-zero summary while still reporting the discovered
count. -/
theorem harvest_flow_summary_counts (instrument_id : Nat)
    (instrument_id_str instrument_name : String) (hook_configs : List HookCfg)
    (storage_base_path : String) (exec : HookExec)
    (transfer_file : String → String → Except String TransferResult)
    (mint : DiscoveredFile → String) (records : List FileRecordRow)
    (discovered : List DiscoveredFile) :
    (harvest_instrument_flow instrument_id instrument_id_str instrument_name
        hook_configs storage_base_path exec transfer_file mint records
        discovered).1.transferred +
      (harvest_instrument_flow instrument_id instrument_id_str instrument_name
        hook_configs storage_base_path exec transfer_file mint records
        discovered).1.skipped +
      (harvest_instrument_flow instrument_id instrument_id_str instrument_name
        hook_configs storage_base_path exec transfer_file mint records
        discovered).1.failed =
      (harvest_instrument_flow instrument_id instrument_id_str instrument_name
        hook_configs storage_base_path exec transfer_file mint records
        discovered).1.new_files ∧
    (harvest_instrument_flow instrument_id instrument_id_str instrument_name
        hook_configs storage_base_path exec transfer_file mint records
        discovered).1.total_discovered = discovered.length ∧
    (harvest_instrument_flow instrument_id instrument_id_str instrument_name
        hook_configs storage_base_path exec transfer_file mint records
        discovered).1.new_files =
      (discover_new_files instrument_id discovered records).1.length ∧
    ((discover_new_files instrument_id discovered records).1 = [] →
      (harvest_instrument_flow instrument_id instrument_id_str instrument_name
          hook_configs storage_base_path exec transfer_file mint records
          discovered).1 =
        { total_discovered := discovered.length, new_files := 0,
          transferred := 0, skipped := 0, failed := 0 }) := by
  unfold harvest_instrument_flow
  by_cases hempty : (discover_new_files instrument_id discovered records).1.isEmpty
  · rw [if_pos hempty]
    refine ⟨rfl, rfl, ?_, fun _ => rfl⟩
    rw [List.isEmpty_iff] at hempty
    rw [hempty]
    rfl
  · rw [if_neg hempty]
    refine ⟨?_, rfl, by simp, ?_⟩
    · dsimp only
      have hpart := countP_status_partition
        (((discover_new_files instrument_id discovered records).1).map (fun f =>
          transfer_single_file_task instrument_id_str instrument_name hook_configs
            storage_base_path exec transfer_file (mint f) f))
        (by
          intro r hr
          rcases List.mem_map.1 hr with ⟨g, _, rfl⟩
          exact task_status_cases instrument_id_str instrument_name hook_configs
            storage_base_path exec transfer_file (mint g) g)
      rw [List.length_map] at hpart
      exact hpart
    · intro hnil
      rw [List.isEmpty_iff] at hempty
      exact absurd hnil hempty

/-- C7: when the adapter raises (`Except.error e`) OR returns a failed
`TransferResult` (`Except.ok tr` with `tr.success = false` and error message
`e`) for a file whose pre-transfer hooks did not skip it, that file's outcome
is `failed` with the error captured in the FileTransfer row, the
already-inserted FileRecord remains in the trace (nothing rolls it back), the
post-transfer phase is never reached for it, a file's outcome depends only on
the adapter's behaviour on its own source path (so other files of the run are
unaffected), and the flow still produces one outcome per new file. -/
theorem adapter_failure_contained (instrument_id instrument_name : String)
    (hook_configs : List HookCfg) (storage_base_path : String) (exec : HookExec)
    (transfer_file : String → String → Except String TransferResult)
    (pid : String) (f : DiscoveredFile) (e : String)
    (hpre : (run_hooks HookTrigger.pre_transfer
        (buildCtx instrument_id instrument_name storage_base_path f) exec
        hook_configs).1.action ≠ HookAction.skip)
    (hadapter : transfer_file f.path
        (finalDest instrument_name storage_base_path f
          (run_hooks HookTrigger.pre_transfer
            (buildCtx instrument_id instrument_name storage_base_path f) exec
            hook_configs).1) = Except.error e ∨
      (∃ tr : TransferResult, transfer_file f.path
          (finalDest instrument_name storage_base_path f
            (run_hooks HookTrigger.pre_transfer
              (buildCtx instrument_id instrument_name storage_base_path f) exec
              hook_configs).1) = Except.ok tr ∧
        tr.success = false ∧ tr.error_message = e)) :
    (transfer_single_file_task instrument_id instrument_name hook_configs
        storage_base_path exec transfer_file pid f).status = "failed" ∧
    (transfer_single_file_task instrument_id instrument_name hook_configs
        storage_base_path exec transfer_file pid f).error = e ∧
    HarvestEv.insertFileRecord pid f.path ∈
      (transfer_single_file_task instrument_id instrument_name hook_configs
        storage_base_path exec transfer_file pid f).events ∧
    HarvestEv.setTransferStatus TransferStatus.failed e ∈
      (transfer_single_file_task instrument_id instrument_name hook_configs
        storage_base_path exec transfer_file pid f).events ∧
    HarvestEv.ranHooks HookTrigger.post_transfer ∉
      (transfer_single_file_task instrument_id instrument_name hook_configs
        storage_base_path exec transfer_file pid f).events ∧
    (∀ (tf₂ : String → String → Except String TransferResult) (pid₂ : String)
        (g : DiscoveredFile),
      (∀ d, transfer_file g.path d = tf₂ g.path d) →
      transfer_single_file_task instrument_id instrument_name hook_configs
          storage_base_path exec transfer_file pid₂ g =
        transfer_single_file_task instrument_id instrument_name hook_configs
          storage_base_path exec tf₂ pid₂ g) ∧
    (∀ (iid : Nat) (mint : DiscoveredFile → String)
        (records : List FileRecordRow) (discovered : List DiscoveredFile),
      (discover_new_files iid discovered records).1 ≠ [] →
      (harvest_instrument_flow iid instrument_id instrument_name hook_configs
          storage_base_path exec transfer_file mint records discovered).2.length =
        (discover_new_files iid discovered records).1.length) := by
  have htask : transfer_single_file_task instrument_id instrument_name
      hook_configs storage_base_path exec transfer_file pid f =
      { status := "failed", error := e,
        events :=
          [HarvestEv.mint pid, HarvestEv.insertFileRecord pid f.path] ++
            [HarvestEv.ranHooks HookTrigger.pre_transfer] ++
            [HarvestEv.insertTransfer TransferStatus.in_progress
              (finalDest instrument_name storage_base_path f
                (run_hooks HookTrigger.pre_transfer
                  (buildCtx instrument_id instrument_name storage_base_path f)
                  exec hook_configs).1) ""] ++
            [HarvestEv.setTransferStatus TransferStatus.failed e] } := by
    unfold transfer_single_file_task
    dsimp only
    rw [if_neg hpre]
    rcases hadapter with herr | ⟨tr, htr, hsucc, herrmsg⟩
    · rw [herr]
    · rw [htr]
      dsimp only
      rw [if_pos hsucc, herrmsg]
  refine ⟨by rw [htask], by rw [htask], by rw [htask]; simp, by rw [htask]; simp,
    by rw [htask]; simp, ?_, ?_⟩
  · intro tf₂ pid₂ g hagree
    unfold transfer_single_file_task
    dsimp only
    by_cases hskip : (run_hooks HookTrigger.pre_transfer
        (buildCtx instrument_id instrument_name storage_base_path g) exec
        hook_configs).1.action = HookAction.skip
    · rw [if_pos hskip, if_pos hskip]
    · rw [if_neg hskip, if_neg hskip, hagree]
  · intro iid mint records discovered hne
    unfold harvest_instrument_flow
    rw [if_neg (by simpa [List.isEmpty_iff] using hne)]
    exact List.length_map _ _

/-- True of the identifier-minting event. -/
def evIsMint : HarvestEv → Bool
  | HarvestEv.mint _ => true
  | _ => false

/-- True of the pre-transfer hook-run event. -/
def evIsPreHooks : HarvestEv → Bool
  | HarvestEv.ranHooks HookTrigger.pre_transfer => true
  | _ => false

/-- A new file with no matching hooks and a succeeding adapter. -/
def c5File : DiscoveredFile := { path := "exp/a.tif", filename := "a.tif", size_bytes := 4 }

/-- Oracle: every hook proceeds. -/
def c5Exec : HookExec := fun _ _ => some { action := HookAction.proceed }

/-- Adapter oracle: every copy succeeds. -/
def c5Tf : String → String → Except String TransferResult := fun s d =>
  Except.ok { success := true, source_path := s, destination_path := d,
              dest_checksum := "aa11" }

/-- C5 refutation of the claimed ordering: in the per-file task the
pre-transfer hook run does NOT precede identifier minting — at this concrete
input the mint event comes first. -/
theorem transfer_task_hooks_after_insert_counterexample :
    ¬ (List.findIdx evIsPreHooks
        (transfer_single_file_task "i1" "scope" [] "/data" c5Exec c5Tf "ark-1"
          c5File).events <
       List.findIdx evIsMint
        (transfer_single_file_task "i1" "scope" [] "/data" c5Exec c5Tf "ark-1"
          c5File).events) := by
  decide

/-- C5 (amended): the task mints the identifier and inserts the FileRecord
first and runs the pre-transfer hooks only afterwards; a `skip` result
produces a `skipped` FileTransfer row carrying the hook's message and stops
(no `in_progress` row is ever created for the file); a `redirect` result
rewrites the destination path, under which the `in_progress` FileTransfer row
is then created. -/
theorem transfer_task_insert_then_hooks (instrument_id instrument_name : String)
    (hook_configs : List HookCfg) (storage_base_path : String) (exec : HookExec)
    (transfer_file : String → String → Except String TransferResult)
    (pid : String) (f : DiscoveredFile) :
    (transfer_single_file_task instrument_id instrument_name hook_configs
        storage_base_path exec transfer_file pid f).events.take 3 =
      [HarvestEv.mint pid, HarvestEv.insertFileRecord pid f.path,
       HarvestEv.ranHooks HookTrigger.pre_transfer] ∧
    ((run_hooks HookTrigger.pre_transfer
        (buildCtx instrument_id instrument_name storage_base_path f) exec
        hook_configs).1.action = HookAction.skip →
      transfer_single_file_task instrument_id instrument_name hook_configs
          storage_base_path exec transfer_file pid f =
        { status := "skipped",
          message := (run_hooks HookTrigger.pre_transfer
            (buildCtx instrument_id instrument_name storage_base_path f) exec
            hook_configs).1.message,
          events :=
            [HarvestEv.mint pid, HarvestEv.insertFileRecord pid f.path,
             HarvestEv.ranHooks HookTrigger.pre_transfer,
             HarvestEv.insertTransfer TransferStatus.skipped ""
               ((run_hooks HookTrigger.pre_transfer
                 (buildCtx instrument_id instrument_name storage_base_path f)
                 exec hook_configs).1.message)] }) ∧
    ((run_hooks HookTrigger.pre_transfer
        (buildCtx instrument_id instrument_name storage_base_path f) exec
        hook_configs).1.action = HookAction.redirect →
      HarvestEv.insertTransfer TransferStatus.in_progress
          ((run_hooks HookTrigger.pre_transfer
            (buildCtx instrument_id instrument_name storage_base_path f) exec
            hook_configs).1.redirect_path ++ "/" ++ instrument_name ++ "/" ++
            f.path) "" ∈
        (transfer_single_file_task instrument_id instrument_name hook_configs
          storage_base_path exec transfer_file pid f).events) := by
  refine ⟨?_, ?_, ?_⟩
  · unfold transfer_single_file_task
    dsimp only
    by_cases hskip : (run_hooks HookTrigger.pre_transfer
        (buildCtx instrument_id instrument_name storage_base_path f) exec
        hook_configs).1.action = HookAction.skip
    · rw [if_pos hskip]
      simp
    · rw [if_neg hskip]
      cases htf : transfer_file f.path (finalDest instrument_name
          storage_base_path f (run_hooks HookTrigger.pre_transfer
            (buildCtx instrument_id instrument_name storage_base_path f) exec
            hook_configs).1) with
      | error e => rfl
      | ok tr =>
        dsimp only
        by_cases hsucc : tr.success = false
        · rw [if_pos hsucc]
          simp
        · rw [if_neg hsucc]
          by_cases hck : tr.dest_checksum = ""
          · simp [hck]
          · simp [hck]
  · intro hskip
    unfold transfer_single_file_task
    dsimp only
    rw [if_pos hskip]
    simp
  · intro hred
    have hskip : ¬ ((run_hooks HookTrigger.pre_transfer
        (buildCtx instrument_id instrument_name storage_base_path f) exec
        hook_configs).1.action = HookAction.skip) := by
      rw [hred]; intro hcontra; exact HookAction.noConfusion hcontra
    unfold transfer_single_file_task
    dsimp only
    rw [if_neg hskip]
    have hdest : finalDest instrument_name storage_base_path f
        (run_hooks HookTrigger.pre_transfer
          (buildCtx instrument_id instrument_name storage_base_path f) exec
          hook_configs).1 =
        (run_hooks HookTrigger.pre_transfer
          (buildCtx instrument_id instrument_name storage_base_path f) exec
          hook_configs).1.redirect_path ++ "/" ++ instrument_name ++ "/" ++
          f.path := by
      unfold finalDest
      rw [if_pos hred]
    cases htf : transfer_file f.path (finalDest instrument_name
        storage_base_path f (run_hooks HookTrigger.pre_transfer
          (buildCtx instrument_id instrument_name storage_base_path f) exec
          hook_configs).1) with
    | error e => rw [← hdest]; simp
    | ok tr =>
      dsimp only
      by_cases hsucc : tr.success = false
      · rw [if_pos hsucc, ← hdest]
        simp
      · rw [if_neg hsucc, ← hdest]
        by_cases hck : tr.dest_checksum = ""
        · simp [hck]
        · simp [hck]

theorem transfer_task_insert_then_hooks_witness :
    transfer_single_file_task "i1" "scope" [wSkipCfg] "/data" wExec c5Tf "ark-1"
        c5File =
      { status := "skipped", message := "Excluded by pattern",
        events :=
          [HarvestEv.mint "ark-1", HarvestEv.insertFileRecord "ark-1" "exp/a.tif",
           HarvestEv.ranHooks HookTrigger.pre_transfer,
           HarvestEv.insertTransfer TransferStatus.skipped ""
             "Excluded by pattern"] } := by
  have h := (transfer_task_insert_then_hooks "i1" "scope" [wSkipCfg] "/data"
    wExec c5Tf "ark-1" c5File).2.1 (by decide)
  rw [h]
  rfl

/-- Adapter oracle: every copy raises. -/
def c7TfFail : String → String → Except String TransferResult := fun _ _ =>
  Except.error "boom"

/-- Adapter oracle: every copy returns a failed `TransferResult` (no
exception raised). -/
def c7TfFailResult : String → String → Except String TransferResult := fun s d =>
  Except.ok { success := false, source_path := s, destination_path := d,
              error_message := "copy failed" }

theorem adapter_failure_contained_witness :
    (transfer_single_file_task "i1" "scope" [] "/data" c5Exec c7TfFail "ark-1"
      c5File).status = "failed" ∧
    (transfer_single_file_task "i1" "scope" [] "/data" c5Exec c7TfFail "ark-1"
      c5File).error = "boom" ∧
    (transfer_single_file_task "i1" "scope" [] "/data" c5Exec c7TfFailResult
      "ark-1" c5File).status = "failed" ∧
    (transfer_single_file_task "i1" "scope" [] "/data" c5Exec c7TfFailResult
      "ark-1" c5File).error = "copy failed" := by
  obtain ⟨h1, h2, _⟩ := adapter_failure_contained "i1" "scope" [] "/data" c5Exec
    c7TfFail "ark-1" c5File "boom" (by decide) (Or.inl rfl)
  obtain ⟨h3, h4, _⟩ := adapter_failure_contained "i1" "scope" [] "/data" c5Exec
    c7TfFailResult "ark-1" c5File "copy failed" (by decide)
    (Or.inr ⟨{ success := false, source_path := c5File.path,
               destination_path := finalDest "scope" "/data" c5File
                 (run_hooks HookTrigger.pre_transfer
                   (buildCtx "i1" "scope" "/data" c5File) c5Exec []).1,
               error_message := "copy failed" }, rfl, rfl, rfl⟩)
  exact ⟨h1, h2, h3, h4⟩

theorem harvest_flow_summary_counts_witness :
    (harvest_instrument_flow 1 "i1" "scope" [] "/data" c5Exec c5Tf
        (fun _ => "p") [] []).1 =
      { total_discovered := 0, new_files := 0, transferred := 0, skipped := 0,
        failed := 0 } :=
  (harvest_flow_summary_counts 1 "i1" "scope" [] "/data" c5Exec c5Tf
    (fun _ => "p") [] []).2.2.2 rfl

end Streamweave
